import Mathlib

/-!
Block-lifecycle file streaming service (app/streamserver.go)

Shallow embedding of `FileStreamingService` and its three listeners
`ListenBeginBlock`, `ListenDeliverTx`, `ListenEndBlock`, together with the
constructor `NewFileStreamingService`.

Conventions of the embedding

* The receiver `fss *FileStreamingService` is passed in and handed back:
  every listener returns the service state it leaves behind.
* What a listener does to the outside world is returned next to the state:
  the files it created (name and content written, in creation order) and
  the messages it sent to `ctx.Logger().Error`.
* Library code the listeners call is a parameter: the pure functions
  (`types.HeaderFromProto`, `Header.Hash`, `json.Marshal`) are the fields of
  `Lib`, the result of `os.Create` is a function of the file name supplied
  separately for every `ListenEndBlock` call.
* `file.Write` and `file.Close`, whose results the code ignores, are taken to
  write the whole payload to the file just created.
* A run-time panic is recorded in the field `panicked`.
* `int64` values are integers; Go strings are Lean strings, indexed by
  character (the only index taken is that of the ASCII separator `_`, where
  slicing a UTF-8 string by character and by byte gives the same string).
-/

set_option linter.dupNamespace false

namespace StreamServer

/-! ## Library values -/

/-- One element of a Go byte slice. -/
abbrev Byte := Fin 256

/-- Go `time.Time`, reduced to the seconds since the Unix epoch and the
nanoseconds within the second. -/
structure Time where
  sec : Int
  nsec : Nat
deriving DecidableEq, Repr

/-- Go `Time.Unix`: the seconds since January 1, 1970 UTC. -/
def Time.Unix (t : Time) : Int := t.sec

/-- The zero value `time.Time{}` is January 1 of year 1, 00:00:00 UTC. -/
def Time.zero : Time := { sec := -62135596800, nsec := 0 }

/-- Tendermint `types.Header`. -/
structure Header where
  VersionBlock : Nat
  VersionApp : Nat
  ChainID : String
  Height : Int
  Time : Time
  LastBlockIDHash : List Byte
  LastBlockIDPartsTotal : Nat
  LastBlockIDPartsHash : List Byte
  LastCommitHash : List Byte
  DataHash : List Byte
  ValidatorsHash : List Byte
  NextValidatorsHash : List Byte
  ConsensusHash : List Byte
  AppHash : List Byte
  LastResultsHash : List Byte
  EvidenceHash : List Byte
  ProposerAddress : List Byte
deriving DecidableEq, Repr

/-- The zero value `types.Header{}`. -/
def Header.zero : Header :=
  { VersionBlock := 0, VersionApp := 0, ChainID := "", Height := 0, Time := Time.zero,
    LastBlockIDHash := [], LastBlockIDPartsTotal := 0, LastBlockIDPartsHash := [],
    LastCommitHash := [], DataHash := [], ValidatorsHash := [], NextValidatorsHash := [],
    ConsensusHash := [], AppHash := [], LastResultsHash := [], EvidenceHash := [],
    ProposerAddress := [] }

/-- The wire form `tmproto.Header` carried by a begin-block request. It has
the fields of `Header`; `types.HeaderFromProto` converts and validates it. -/
abbrev ProtoHeader := Header

/-- ABCI `EventAttribute`. -/
structure EventAttribute where
  Key : List Byte
  Value : List Byte
  Index : Bool
deriving DecidableEq, Repr

/-- ABCI `Event`; its field `Type` is named `EventType` here. -/
structure Event where
  EventType : String
  Attributes : List EventAttribute
deriving DecidableEq, Repr

/-- ABCI `ResponseDeliverTx`: the execution result of one transaction. A
non-zero `Code` reports a failed execution. -/
structure ResponseDeliverTx where
  Code : Nat
  Data : List Byte
  Log : String
  Info : String
  GasWanted : Int
  GasUsed : Int
  Events : List Event
  Codespace : String
deriving DecidableEq, Repr

/-- ABCI `RequestBeginBlock`, reduced to the field the listener reads. -/
structure RequestBeginBlock where
  Header : ProtoHeader
deriving DecidableEq, Repr

/-- ABCI `RequestDeliverTx`. -/
structure RequestDeliverTx where
  Tx : List Byte
deriving DecidableEq, Repr

/-- ABCI `RequestEndBlock`. -/
structure RequestEndBlock where
  Height : Int
deriving DecidableEq, Repr

/-! ## Go standard library functions used by the listeners -/

/-- Go `strings.HasPrefix` on character lists. -/
def HasPrefix : List Char → List Char → Bool
  | _, [] => true
  | [], _ :: _ => false
  | c :: cs, p :: ps => c == p && HasPrefix cs ps

/-- Search loop of `strings.Index`: the index of the first occurrence of
`substr` in `s`, counted from `i`, or `-1`. -/
def indexFrom (substr : List Char) : List Char → Nat → Int
  | [], i => if HasPrefix [] substr then (i : Int) else -1
  | c :: cs, i => if HasPrefix (c :: cs) substr then (i : Int) else indexFrom substr cs (i + 1)

/-- Go `strings.Index`. -/
def strings.Index (s substr : String) : Int := indexFrom substr.data s.data 0

/-- Go `strings.Contains`, which is `Index(s, substr) >= 0`. -/
def strings.Contains (s substr : String) : Bool := decide (0 ≤ strings.Index s substr)

/-- Go slice expression `s[:i]`: it panics (here `none`) unless
`0 <= i <= len(s)`. -/
def sliceTo (s : String) (i : Int) : Option String :=
  if 0 ≤ i ∧ i ≤ (s.data.length : Int) then some (String.mk (s.data.take i.toNat)) else none

/-- The digit table of Go `encoding/hex`. -/
def hextable : List Char :=
  ['0', '1', '2', '3', '4', '5', '6', '7', '8', '9', 'a', 'b', 'c', 'd', 'e', 'f']

/-- Go `hex.EncodeToString`: two lowercase digits per byte, high nibble
first. -/
def hex.EncodeToString (src : List Byte) : String :=
  String.mk (src.flatMap fun b => [hextable.getD (b.val / 16) '0', hextable.getD (b.val % 16) '0'])

/-- Tendermint `HexBytes.String`: `strings.ToUpper(hex.EncodeToString(bz))`.
The argument of `ToUpper` holds hex digits only. -/
def HexBytes.String (bz : List Byte) : String :=
  String.mk ((hex.EncodeToString bz).data.map Char.toUpper)

/-- Go `fmt.Sprint` of an `int64`: its decimal form. -/
def SprintInt64 (n : Int) : String := toString n

/-! ## Data model of streamserver.go -/

/-- Go struct `Block`. -/
structure Block where
  Height : Int
  Hash : String
  Txn : Int
  Time : Int
  Proposer : String
deriving DecidableEq, Repr

/-- Go struct `DeliverTx`. -/
structure DeliverTx where
  Tx : String
  TxResult : ResponseDeliverTx
deriving DecidableEq, Repr

/-- Go struct `Txs`. -/
structure Txs where
  Txs : List DeliverTx
deriving DecidableEq, Repr

/-- Go struct `FileStreamingService`. -/
structure FileStreamingService where
  header : Header
  txCache : List DeliverTx
  filePrefix : String
  writeDir : String
deriving DecidableEq, Repr

/-- Pure library functions the listeners call. `HeaderFromProto` returns a
header together with an optional error; the marshal functions are
`json.Marshal` at the two types it is used at. -/
structure Lib where
  HeaderFromProto : ProtoHeader → Header × Option String
  HeaderHash : Header → List Byte
  MarshalTxs : Txs → Except String String
  MarshalBlock : Block → Except String String

/-- What a listener call leaves behind: the service state, the files it
created with the content written to each, the logged errors, and whether the
call panicked. -/
structure Outcome where
  fss : FileStreamingService
  files : List (String × String)
  logs : List String
  panicked : Bool

/-! ## The listeners -/

/-- Go `(*FileStreamingService).ListenBeginBlock`. The header and the error
returned by `HeaderFromProto` are assigned together, before the error is
looked at. -/
def ListenBeginBlock (lib : Lib) (fss : FileStreamingService) (req : RequestBeginBlock) :
    Outcome :=
  let r := lib.HeaderFromProto req.Header
  let fss := { fss with header := r.1 }
  match r.2 with
  | some err => { fss := fss, files := [], logs := [err], panicked := false }
  | none => { fss := fss, files := [], logs := [], panicked := false }

/-- Go `(*FileStreamingService).ListenDeliverTx`. -/
def ListenDeliverTx (fss : FileStreamingService) (req : RequestDeliverTx)
    (res : ResponseDeliverTx) : FileStreamingService :=
  { fss with txCache := fss.txCache ++ [{ Tx := hex.EncodeToString req.Tx, TxResult := res }] }

/-- The deferred function of `ListenEndBlock`. -/
def endBlockDeferred (fss : FileStreamingService) : FileStreamingService :=
  { fss with txCache := [], header := Header.zero }

/-- Lines 68 to 70 of `ListenEndBlock`: the stored prefix cut before its
first `_` when it contains one; `none` when the slice expression panics. -/
def truncatePrefix (filePrefix : String) : Option String :=
  if strings.Contains filePrefix "_" then
    sliceTo filePrefix (strings.Index filePrefix "_")
  else some filePrefix

/-- The `Block` literal that `ListenEndBlock` passes to `json.Marshal`. -/
def blockRecord (lib : Lib) (fss : FileStreamingService) : Block :=
  { Height := fss.header.Height,
    Time := fss.header.Time.Unix,
    Hash := HexBytes.String (lib.HeaderHash fss.header),
    Txn := (fss.txCache.length : Int),
    Proposer := HexBytes.String fss.header.ProposerAddress }

/-- The `if len(fss.txCache) > 0` statement of `ListenEndBlock`: the files
it created, or the error after which the function returns. -/
def writeTxs (lib : Lib) (osCreate : String → Option String) (fss : FileStreamingService) :
    Except String (List (String × String)) :=
  if fss.txCache.length > 0 then
    match lib.MarshalTxs { Txs := fss.txCache } with
    | .ok data =>
      let filename := fss.writeDir ++ "/" ++ fss.filePrefix ++ "_txs"
      match osCreate filename with
      | some err => .error err
      | none => .ok [(filename, data)]
    | .error _ => .ok []
  else .ok []

/-- The rest of `ListenEndBlock` after the transactions were written: the
block record is marshalled and written; `files` are the files created so
far. -/
def writeBlock (lib : Lib) (osCreate : String → Option String) (fss : FileStreamingService)
    (files : List (String × String)) : Outcome :=
  match lib.MarshalBlock (blockRecord lib fss) with
  | .ok data =>
    let blockfilename := fss.writeDir ++ "/" ++ fss.filePrefix ++ "_block"
    match osCreate blockfilename with
    | some err => { fss := fss, files := files, logs := [err], panicked := false }
    | none =>
      { fss := fss, files := files ++ [(blockfilename, data)], logs := [], panicked := false }
  | .error _ => { fss := fss, files := files, logs := [], panicked := false }

/-- Body of `ListenEndBlock`, up to the point where it returns or panics;
the deferred reset is not yet applied. -/
def endBlockBody (lib : Lib) (osCreate : String → Option String)
    (fss : FileStreamingService) (req : RequestEndBlock) : Outcome :=
  match truncatePrefix fss.filePrefix with
  | none => { fss := fss, files := [], logs := [], panicked := true }
  | some p =>
    let fss := { fss with filePrefix := p ++ "_" ++ SprintInt64 req.Height }
    match writeTxs lib osCreate fss with
    | .error err => { fss := fss, files := [], logs := [err], panicked := false }
    | .ok files => writeBlock lib osCreate fss files

/-- Go `(*FileStreamingService).ListenEndBlock`: the body, then the deferred
function, which runs on every exit. -/
def ListenEndBlock (lib : Lib) (osCreate : String → Option String)
    (fss : FileStreamingService) (req : RequestEndBlock) : Outcome :=
  let r := endBlockBody lib osCreate fss req
  { r with fss := endBlockDeferred r.fss }

/-- Go `NewFileStreamingService`. -/
def NewFileStreamingService (writeDir filePrefix : String) : FileStreamingService :=
  { header := Header.zero, txCache := [], filePrefix := filePrefix, writeDir := writeDir }

/-! ## Call sequences -/

/-- One listener call made by the host pipeline. An end-block call comes with
the behaviour of `os.Create` during that call. -/
inductive Call where
  | BeginBlock (req : RequestBeginBlock)
  | DeliverTx (req : RequestDeliverTx) (res : ResponseDeliverTx)
  | EndBlock (osCreate : String → Option String) (req : RequestEndBlock)

/-- The outcome of one call. -/
def step (lib : Lib) (fss : FileStreamingService) : Call → Outcome
  | .BeginBlock req => ListenBeginBlock lib fss req
  | .DeliverTx req res =>
    { fss := ListenDeliverTx fss req res, files := [], logs := [], panicked := false }
  | .EndBlock osCreate req => ListenEndBlock lib osCreate fss req

/-- The service state after a sequence of calls; `none` when a call
panicked. -/
def run (lib : Lib) : FileStreamingService → List Call → Option FileStreamingService
  | fss, [] => some fss
  | fss, c :: cs =>
    if (step lib fss c).panicked then none else run lib (step lib fss c).fss cs

/-- The calls of one block: begin, the deliveries in order, end. -/
structure BlockCalls where
  beginReq : RequestBeginBlock
  txs : List (RequestDeliverTx × ResponseDeliverTx)
  osCreate : String → Option String
  endReq : RequestEndBlock

/-- The deliveries of a block as calls. -/
def deliverCalls (txs : List (RequestDeliverTx × ResponseDeliverTx)) : List Call :=
  txs.map fun t => Call.DeliverTx t.1 t.2

/-- The call sequence `ListenBeginBlock, ListenDeliverTx*, ListenEndBlock` of
one block. -/
def BlockCalls.calls (b : BlockCalls) : List Call :=
  Call.BeginBlock b.beginReq :: (deliverCalls b.txs ++ [Call.EndBlock b.osCreate b.endReq])

/-- The record `ListenDeliverTx` buffers for one delivery. -/
def recordOf (t : RequestDeliverTx × ResponseDeliverTx) : DeliverTx :=
  { Tx := hex.EncodeToString t.1.Tx, TxResult := t.2 }

/-- The part of a prefix before its first `_` (all of it when it has
none). -/
def basePrefix (filePrefix : String) : String :=
  String.mk (filePrefix.data.takeWhile fun c => c != '_')

/-- The state in which `ListenEndBlock` writes its files: the prefix has
been recomputed from its part before the first `_` and the height. -/
def renamed (fss : FileStreamingService) (req : RequestEndBlock) : FileStreamingService :=
  { fss with filePrefix := basePrefix fss.filePrefix ++ "_" ++ SprintInt64 req.Height }

/-- The state after a sequence of calls, computed without looking at the
panic flag. -/
def after (lib : Lib) (fss : FileStreamingService) (cs : List Call) : FileStreamingService :=
  cs.foldl (fun s c => (step lib s c).fss) fss

/-- Naming scheme of the specification: the artifact of kind `kind` (`txs`
or `block`) for a stream prefix and a height is
`writeDir/filePrefix_height_kind`. -/
def artifactName (writeDir filePrefix : String) (height : Int) (kind : String) : String :=
  writeDir ++ "/" ++ filePrefix ++ "_" ++ SprintInt64 height ++ "_" ++ kind

/-- Value of one lowercase hexadecimal digit, as the specification's
"lowercase hex" is read back: `0` to `9` stand for 0 to 9 and `a` to `f` for
10 to 15; every other character, the uppercase digits included, has no
value. -/
def lowerHexValue (c : Char) : Option Nat :=
  if c = '0' then some 0 else if c = '1' then some 1 else if c = '2' then some 2
  else if c = '3' then some 3 else if c = '4' then some 4 else if c = '5' then some 5
  else if c = '6' then some 6 else if c = '7' then some 7 else if c = '8' then some 8
  else if c = '9' then some 9 else if c = 'a' then some 10 else if c = 'b' then some 11
  else if c = 'c' then some 12 else if c = 'd' then some 13 else if c = 'e' then some 14
  else if c = 'f' then some 15 else none

/-- Reading of a lowercase hex string: two digits per byte, the high nibble
first; `none` when the length is odd or a character is no lowercase hex
digit. A byte sequence has exactly one string that reads back to it. -/
def decodeLowerHex : List Char → Option (List Byte)
  | [] => some []
  | [_] => none
  | hi :: lo :: rest =>
    match lowerHexValue hi, lowerHexValue lo, decodeLowerHex rest with
    | some h, some l, some bytes => some (⟨(16 * h + l) % 256, Nat.mod_lt _ (by decide)⟩ :: bytes)
    | _, _, _ => none

/-! ## Concrete values used in the examples -/

/-- A library whose marshal functions succeed with fixed contents and whose
header conversion accepts every header. -/
def demoLib : Lib :=
  { HeaderFromProto := fun ph => (ph, none),
    HeaderHash := fun h => h.ValidatorsHash,
    MarshalTxs := fun t => .ok ("txs:" ++ toString t.Txs.length),
    MarshalBlock := fun b => .ok ("block:" ++ toString b.Height ++ ":" ++ toString b.Txn) }

/-- A library like `demoLib` whose encoding of a transaction batch lists the
`tx` string and the result code of every entry, in order. -/
def listingLib : Lib :=
  { HeaderFromProto := demoLib.HeaderFromProto,
    HeaderHash := demoLib.HeaderHash,
    MarshalTxs := fun t =>
      .ok (t.Txs.foldl (fun acc e => acc ++ e.Tx ++ ":" ++ toString e.TxResult.Code ++ ";") ""),
    MarshalBlock := demoLib.MarshalBlock }

/-- The file system accepts every file. -/
def createOk : String → Option String := fun _ => none

/-- A library like `demoLib` whose header conversion hands back the header
it was given together with a validation error. -/
def rejectingLib : Lib :=
  { HeaderFromProto := fun ph => (ph, some "invalid header"),
    HeaderHash := demoLib.HeaderHash,
    MarshalTxs := demoLib.MarshalTxs,
    MarshalBlock := demoLib.MarshalBlock }

/-- A library like `demoLib` whose `json.Marshal` fails on the transaction
batch. -/
def txsMarshalFailsLib : Lib :=
  { HeaderFromProto := demoLib.HeaderFromProto,
    HeaderHash := demoLib.HeaderHash,
    MarshalTxs := fun _ => .error "json: unsupported value",
    MarshalBlock := demoLib.MarshalBlock }

/-- The file system refuses the transaction artifact of height 7 and accepts
every other file. -/
def txsDenied : String → Option String :=
  fun name => if name = "d/P_7_txs" then some "permission denied" else none

/-- A header of height 7. -/
def header7 : Header :=
  { Header.zero with
    Height := 7, Time := { sec := 1000, nsec := 0 }, ValidatorsHash := [0xAB, 0x0C],
    ProposerAddress := [0x01, 0xFE] }

/-- An execution result reporting success. -/
def resultOk : ResponseDeliverTx :=
  { Code := 0, Data := [], Log := "", Info := "", GasWanted := 10, GasUsed := 7, Events := [],
    Codespace := "" }

/-- An execution result reporting a failed execution. -/
def resultFailed : ResponseDeliverTx :=
  { Code := 5, Data := [], Log := "insufficient funds", Info := "", GasWanted := 10,
    GasUsed := 3, Events := [], Codespace := "sdk" }

/-- The service `NewFileStreamingService "d" "P"` after the begin-block call
of height 7 and one delivered transaction. -/
def oneBuffered : FileStreamingService :=
  ListenDeliverTx (ListenBeginBlock demoLib (NewFileStreamingService "d" "P")
    { Header := header7 }).fss { Tx := [0x01, 0xFF] } resultFailed

/-! ## Strings: the separator search and the prefix truncation -/

theorem sep_data : ("_" : String).data = ['_'] := rfl

theorem HasPrefix_sep (c : Char) (cs : List Char) :
    HasPrefix (c :: cs) ['_'] = (c == '_') := by
  simp [HasPrefix]

theorem indexFrom_sep_of_not_mem (l : List Char) (i : Nat) (h : '_' ∉ l) :
    indexFrom ['_'] l i = -1 := by
  induction l generalizing i with
  | nil => simp [indexFrom, HasPrefix]
  | cons c cs ih =>
    have hc : c ≠ '_' := fun e => h (by simp [e])
    have hcs : '_' ∉ cs := fun e => h (by simp [e])
    simp [indexFrom, HasPrefix_sep, hc, ih _ hcs]

theorem indexFrom_sep_of_mem (l : List Char) (i : Nat) (h : '_' ∈ l) :
    indexFrom ['_'] l i = ((i + (l.takeWhile fun c => c != '_').length : Nat) : Int) := by
  induction l generalizing i with
  | nil => simp at h
  | cons c cs ih =>
    by_cases hc : c = '_'
    · subst hc
      simp [indexFrom, HasPrefix_sep]
    · have hcs : '_' ∈ cs := by
        rcases List.mem_cons.mp h with e | e
        · exact absurd e.symm hc
        · exact e
      simp [indexFrom, HasPrefix_sep, hc, ih _ hcs, List.takeWhile_cons]
      omega

theorem take_length_takeWhile {α : Type} (p : α → Bool) (l : List α) :
    l.take (l.takeWhile p).length = l.takeWhile p := by
  induction l with
  | nil => simp
  | cons a as ih =>
    by_cases h : p a
    · simp [List.takeWhile_cons, h, ih]
    · simp [List.takeWhile_cons, h]

theorem takeWhile_of_not_mem (l : List Char) (h : '_' ∉ l) :
    (l.takeWhile fun c => c != '_') = l := by
  induction l with
  | nil => simp
  | cons c cs ih =>
    have hc : c ≠ '_' := fun e => h (by simp [e])
    have hcs : '_' ∉ cs := fun e => h (by simp [e])
    simp [List.takeWhile_cons, hc, ih hcs]

theorem Index_sep_of_mem (p : String) (h : '_' ∈ p.data) :
    strings.Index p "_" = (((p.data.takeWhile fun c => c != '_').length : Nat) : Int) := by
  simp [strings.Index, sep_data, indexFrom_sep_of_mem _ 0 h]

theorem Index_sep_of_not_mem (p : String) (h : '_' ∉ p.data) : strings.Index p "_" = -1 := by
  simp [strings.Index, sep_data, indexFrom_sep_of_not_mem _ 0 h]

theorem length_takeWhile_le {α : Type} (p : α → Bool) (l : List α) :
    (l.takeWhile p).length ≤ l.length := by
  induction l with
  | nil => simp
  | cons a as ih =>
    by_cases h : p a
    · simp [List.takeWhile_cons, h, ih]
    · simp [List.takeWhile_cons, h]

/-- The slice in `ListenEndBlock` never panics: the truncation yields the
part of the prefix before its first `_`. -/
theorem truncatePrefix_eq (p : String) : truncatePrefix p = some (basePrefix p) := by
  unfold truncatePrefix basePrefix strings.Contains
  by_cases h : '_' ∈ p.data
  · have hle := length_takeWhile_le (fun c => c != '_') p.data
    simp only [Index_sep_of_mem p h, sliceTo]
    have hle2 : (List.takeWhile (fun c => c != '_') p.data).length ≤ p.length := hle
    simp [take_length_takeWhile, hle2]
  · simp [Index_sep_of_not_mem p h, takeWhile_of_not_mem _ h]

theorem basePrefix_of_not_mem (p : String) (h : '_' ∉ p.data) : basePrefix p = p := by
  simp [basePrefix, takeWhile_of_not_mem _ h]

theorem takeWhile_append_sep (l x : List Char) :
    ((l.takeWhile fun c => c != '_') ++ '_' :: x).takeWhile (fun c => c != '_')
      = l.takeWhile fun c => c != '_' := by
  induction l with
  | nil => simp
  | cons c cs ih =>
    by_cases hc : c = '_'
    · subst hc; simp
    · simp [List.takeWhile_cons, hc, ih]

/-- Appending `_` and anything after it to a truncated prefix does not
change what the next truncation yields. -/
theorem basePrefix_append (p x : String) :
    basePrefix (basePrefix p ++ "_" ++ x) = basePrefix p := by
  have h := takeWhile_append_sep p.data x.data
  simp only [basePrefix, String.data_append, sep_data, List.append_assoc, List.singleton_append]
  simp [h]

/-! ## The hex encoding -/

theorem lowerHexValue_hextable (n : Fin 16) :
    lowerHexValue (hextable.getD n.val '0') = some n.val := by
  revert n
  decide

theorem EncodeToString_cons (b : Byte) (bs : List Byte) :
    (hex.EncodeToString (b :: bs)).data =
      hextable.getD (b.val / 16) '0' :: hextable.getD (b.val % 16) '0'
        :: (hex.EncodeToString bs).data := by
  simp [hex.EncodeToString]

/-- The string `hex.EncodeToString` produces reads back, as lowercase hex, to
the bytes it was given. -/
theorem decodeLowerHex_EncodeToString (src : List Byte) :
    decodeLowerHex (hex.EncodeToString src).data = some src := by
  induction src with
  | nil => rfl
  | cons b bs ih =>
    have h1 := lowerHexValue_hextable ⟨b.val / 16, by omega⟩
    have h2 := lowerHexValue_hextable ⟨b.val % 16, by omega⟩
    simp only at h1 h2
    rw [EncodeToString_cons]
    simp only [decodeLowerHex, h1, h2, ih]
    congr 2
    apply Fin.ext
    simp only
    omega

theorem EncodeToString_length (src : List Byte) :
    (hex.EncodeToString src).data.length = 2 * src.length := by
  induction src with
  | nil => rfl
  | cons b bs ih =>
    rw [EncodeToString_cons]
    simp [ih]
    omega

/-! ## What one `ListenEndBlock` call does -/

theorem txs_name_eq (d b h : String) :
    d ++ "/" ++ (b ++ "_" ++ h) ++ "_txs" = d ++ "/" ++ b ++ "_" ++ h ++ "_" ++ "txs" := by
  have e : ("_txs" : String) = "_" ++ "txs" := by decide
  rw [e]
  simp only [String.append_assoc]

theorem block_name_eq (d b h : String) :
    d ++ "/" ++ (b ++ "_" ++ h) ++ "_block" = d ++ "/" ++ b ++ "_" ++ h ++ "_" ++ "block" := by
  have e : ("_block" : String) = "_" ++ "block" := by decide
  rw [e]
  simp only [String.append_assoc]

theorem endBlockBody_eq (lib : Lib) (oc : String → Option String) (fss : FileStreamingService)
    (req : RequestEndBlock) :
    endBlockBody lib oc fss req =
      match writeTxs lib oc (renamed fss req) with
      | .error err =>
        { fss := renamed fss req, files := [], logs := [err], panicked := false }
      | .ok files => writeBlock lib oc (renamed fss req) files := by
  simp only [endBlockBody, truncatePrefix_eq, renamed]

theorem writeBlock_fss (lib : Lib) (oc : String → Option String) (fss : FileStreamingService)
    (files : List (String × String)) : (writeBlock lib oc fss files).fss = fss := by
  unfold writeBlock
  split
  · dsimp only
    split <;> rfl
  · rfl

theorem writeBlock_panicked (lib : Lib) (oc : String → Option String)
    (fss : FileStreamingService) (files : List (String × String)) :
    (writeBlock lib oc fss files).panicked = false := by
  unfold writeBlock
  split
  · dsimp only
    split <;> rfl
  · rfl

theorem endBlockBody_fss (lib : Lib) (oc : String → Option String) (fss : FileStreamingService)
    (req : RequestEndBlock) : (endBlockBody lib oc fss req).fss = renamed fss req := by
  rw [endBlockBody_eq]
  split
  · rfl
  · exact writeBlock_fss _ _ _ _

theorem endBlockBody_panicked (lib : Lib) (oc : String → Option String)
    (fss : FileStreamingService) (req : RequestEndBlock) :
    (endBlockBody lib oc fss req).panicked = false := by
  rw [endBlockBody_eq]
  split
  · rfl
  · exact writeBlock_panicked _ _ _ _

theorem ListenEndBlock_fss (lib : Lib) (oc : String → Option String)
    (fss : FileStreamingService) (req : RequestEndBlock) :
    (ListenEndBlock lib oc fss req).fss =
      { header := Header.zero, txCache := [],
        filePrefix := basePrefix fss.filePrefix ++ "_" ++ SprintInt64 req.Height,
        writeDir := fss.writeDir } := by
  simp [ListenEndBlock, endBlockBody_fss, endBlockDeferred, renamed]

theorem ListenEndBlock_panicked (lib : Lib) (oc : String → Option String)
    (fss : FileStreamingService) (req : RequestEndBlock) :
    (ListenEndBlock lib oc fss req).panicked = false := by
  simp [ListenEndBlock, endBlockBody_panicked]

theorem ListenEndBlock_files (lib : Lib) (oc : String → Option String)
    (fss : FileStreamingService) (req : RequestEndBlock) :
    (ListenEndBlock lib oc fss req).files = (endBlockBody lib oc fss req).files := rfl

theorem renamed_txs_name (fss : FileStreamingService) (req : RequestEndBlock) :
    (renamed fss req).writeDir ++ "/" ++ (renamed fss req).filePrefix ++ "_txs"
      = artifactName fss.writeDir (basePrefix fss.filePrefix) req.Height "txs" := by
  simp only [renamed, artifactName, txs_name_eq]

theorem renamed_block_name (fss : FileStreamingService) (req : RequestEndBlock) :
    (renamed fss req).writeDir ++ "/" ++ (renamed fss req).filePrefix ++ "_block"
      = artifactName fss.writeDir (basePrefix fss.filePrefix) req.Height "block" := by
  simp only [renamed, artifactName, block_name_eq]

theorem writeTxs_renamed (lib : Lib) (oc : String → Option String) (fss : FileStreamingService)
    (req : RequestEndBlock) :
    writeTxs lib oc (renamed fss req) =
      if fss.txCache.length > 0 then
        match lib.MarshalTxs { Txs := fss.txCache } with
        | .ok data =>
          match oc (artifactName fss.writeDir (basePrefix fss.filePrefix) req.Height "txs") with
          | some err => .error err
          | none =>
            .ok [(artifactName fss.writeDir (basePrefix fss.filePrefix) req.Height "txs", data)]
        | .error _ => .ok []
      else .ok [] := by
  unfold writeTxs
  simp only [renamed_txs_name]
  rfl

theorem writeBlock_renamed (lib : Lib) (oc : String → Option String)
    (fss : FileStreamingService) (req : RequestEndBlock) (files : List (String × String)) :
    (writeBlock lib oc (renamed fss req) files).files =
      match lib.MarshalBlock (blockRecord lib fss) with
      | .ok data =>
        match oc (artifactName fss.writeDir (basePrefix fss.filePrefix) req.Height "block") with
        | some _ => files
        | none =>
          files ++
            [(artifactName fss.writeDir (basePrefix fss.filePrefix) req.Height "block", data)]
      | .error _ => files := by
  unfold writeBlock
  simp only [renamed_block_name]
  have hb : blockRecord lib (renamed fss req) = blockRecord lib fss := rfl
  rw [hb]
  split
  · split <;> rfl
  · rfl

/-- The files of one `ListenEndBlock` call, in terms of the state it starts
from. -/
theorem ListenEndBlock_files_eq (lib : Lib) (oc : String → Option String)
    (fss : FileStreamingService) (req : RequestEndBlock) :
    (ListenEndBlock lib oc fss req).files =
      match writeTxs lib oc (renamed fss req) with
      | .error _ => []
      | .ok files => (writeBlock lib oc (renamed fss req) files).files := by
  rw [ListenEndBlock_files, endBlockBody_eq]
  split <;> rfl

theorem block_ne_txs (x y : String) : x ++ "block" ≠ y ++ "txs" := by
  intro h
  have hb : ("block" : String).data = ['b', 'l', 'o', 'c', 'k'] := rfl
  have ht : ("txs" : String).data = ['t', 'x', 's'] := rfl
  have h2 := congrArg (fun s => s.data.reverse.head?) h
  simp [String.data_append, hb, ht] at h2

/-- A block artifact never carries the name of a transaction artifact. -/
theorem artifact_block_not_txs (d b : String) (h : Int) (a : String) :
    artifactName d b h "block" ≠ a ++ "_txs" := by
  have e : ("_txs" : String) = "_" ++ "txs" := by decide
  rw [e, ← String.append_assoc]
  exact block_ne_txs _ _

theorem artifact_block_ne_txs (d b : String) (h : Int) (d2 b2 : String) (h2 : Int) :
    artifactName d b h "block" ≠ artifactName d2 b2 h2 "txs" := by
  unfold artifactName
  exact block_ne_txs _ _

/-- Every file a `ListenEndBlock` call creates is the transaction artifact,
holding the marshalled buffer, or the block artifact, holding the marshalled
block record; both are named after the truncated prefix and the height. -/
theorem ListenEndBlock_mem (lib : Lib) (oc : String → Option String)
    (fss : FileStreamingService) (req : RequestEndBlock) (f : String × String)
    (hf : f ∈ (ListenEndBlock lib oc fss req).files) :
    (f.1 = artifactName fss.writeDir (basePrefix fss.filePrefix) req.Height "txs" ∧
        0 < fss.txCache.length ∧ lib.MarshalTxs { Txs := fss.txCache } = .ok f.2) ∨
      (f.1 = artifactName fss.writeDir (basePrefix fss.filePrefix) req.Height "block" ∧
        lib.MarshalBlock (blockRecord lib fss) = .ok f.2) := by
  rw [ListenEndBlock_files_eq, writeTxs_renamed] at hf
  by_cases hc : 0 < fss.txCache.length
  · cases hm : lib.MarshalTxs { Txs := fss.txCache } <;>
      cases ho : oc (artifactName fss.writeDir (basePrefix fss.filePrefix) req.Height "txs") <;>
      cases hb : lib.MarshalBlock (blockRecord lib fss) <;>
      cases hob : oc (artifactName fss.writeDir (basePrefix fss.filePrefix) req.Height "block") <;>
      simp [hc, hm, ho, hb, hob, writeBlock_renamed] at hf ⊢ <;>
      aesop
  · cases hb : lib.MarshalBlock (blockRecord lib fss) <;>
      cases hob : oc (artifactName fss.writeDir (basePrefix fss.filePrefix) req.Height "block") <;>
      simp [hc, hb, hob, writeBlock_renamed] at hf ⊢
    aesop

theorem ListenEndBlock_files_create_txs_fails (lib : Lib) (oc : String → Option String)
    (fss : FileStreamingService) (req : RequestEndBlock) (d e : String)
    (hc : 0 < fss.txCache.length) (hm : lib.MarshalTxs { Txs := fss.txCache } = .ok d)
    (ho : oc (artifactName fss.writeDir (basePrefix fss.filePrefix) req.Height "txs") = some e) :
    (ListenEndBlock lib oc fss req).files = [] := by
  rw [ListenEndBlock_files_eq, writeTxs_renamed]
  simp [hc, hm, ho]

theorem ListenEndBlock_files_all_ok (lib : Lib) (oc : String → Option String)
    (fss : FileStreamingService) (req : RequestEndBlock) (d d2 : String)
    (hc : 0 < fss.txCache.length) (hm : lib.MarshalTxs { Txs := fss.txCache } = .ok d)
    (ho : oc (artifactName fss.writeDir (basePrefix fss.filePrefix) req.Height "txs") = none)
    (hb : lib.MarshalBlock (blockRecord lib fss) = .ok d2)
    (hob : oc (artifactName fss.writeDir (basePrefix fss.filePrefix) req.Height "block") = none) :
    (ListenEndBlock lib oc fss req).files =
      [(artifactName fss.writeDir (basePrefix fss.filePrefix) req.Height "txs", d),
       (artifactName fss.writeDir (basePrefix fss.filePrefix) req.Height "block", d2)] := by
  rw [ListenEndBlock_files_eq, writeTxs_renamed]
  simp [hc, hm, ho, hb, hob, writeBlock_renamed]

theorem ListenEndBlock_files_empty_cache (lib : Lib) (oc : String → Option String)
    (fss : FileStreamingService) (req : RequestEndBlock) (hc : fss.txCache = []) :
    (ListenEndBlock lib oc fss req).files =
      match lib.MarshalBlock (blockRecord lib fss) with
      | .ok data =>
        match oc (artifactName fss.writeDir (basePrefix fss.filePrefix) req.Height "block") with
        | some _ => []
        | none =>
          [(artifactName fss.writeDir (basePrefix fss.filePrefix) req.Height "block", data)]
      | .error _ => [] := by
  rw [ListenEndBlock_files_eq, writeTxs_renamed]
  simp [hc, writeBlock_renamed]

theorem ListenEndBlock_txs_mem (lib : Lib) (oc : String → Option String)
    (fss : FileStreamingService) (req : RequestEndBlock) (d : String)
    (hc : 0 < fss.txCache.length) (hm : lib.MarshalTxs { Txs := fss.txCache } = .ok d)
    (ho : oc (artifactName fss.writeDir (basePrefix fss.filePrefix) req.Height "txs") = none) :
    (artifactName fss.writeDir (basePrefix fss.filePrefix) req.Height "txs", d)
      ∈ (ListenEndBlock lib oc fss req).files := by
  rw [ListenEndBlock_files_eq, writeTxs_renamed]
  cases hb : lib.MarshalBlock (blockRecord lib fss) <;>
    cases hob : oc (artifactName fss.writeDir (basePrefix fss.filePrefix) req.Height "block") <;>
    simp [hc, hm, ho, hb, hob, writeBlock_renamed]

theorem ListenEndBlock_block_mem (lib : Lib) (oc : String → Option String)
    (fss : FileStreamingService) (req : RequestEndBlock) (d2 : String)
    (ho : oc (artifactName fss.writeDir (basePrefix fss.filePrefix) req.Height "txs") = none)
    (hb : lib.MarshalBlock (blockRecord lib fss) = .ok d2)
    (hob : oc (artifactName fss.writeDir (basePrefix fss.filePrefix) req.Height "block") = none) :
    (artifactName fss.writeDir (basePrefix fss.filePrefix) req.Height "block", d2)
      ∈ (ListenEndBlock lib oc fss req).files := by
  rw [ListenEndBlock_files_eq, writeTxs_renamed]
  by_cases hc : 0 < fss.txCache.length
  · cases hm : lib.MarshalTxs { Txs := fss.txCache } <;>
      simp [hc, hm, ho, hb, hob, writeBlock_renamed]
  · simp [hc, hb, hob, writeBlock_renamed]

/-! ## Runs -/

theorem step_panicked (lib : Lib) (fss : FileStreamingService) (c : Call) :
    (step lib fss c).panicked = false := by
  cases c with
  | BeginBlock req =>
    simp only [step, ListenBeginBlock]
    split <;> rfl
  | DeliverTx req res => rfl
  | EndBlock oc req => exact ListenEndBlock_panicked lib oc fss req

/-- No call panics, so every run reaches a state. -/
theorem run_eq (lib : Lib) (fss : FileStreamingService) (cs : List Call) :
    run lib fss cs = some (after lib fss cs) := by
  induction cs generalizing fss with
  | nil => rfl
  | cons c cs ih => simp [run, step_panicked, ih, after]

theorem after_append (lib : Lib) (fss : FileStreamingService) (a b : List Call) :
    after lib fss (a ++ b) = after lib (after lib fss a) b := by
  simp [after, List.foldl_append]

theorem ListenBeginBlock_fss (lib : Lib) (fss : FileStreamingService)
    (req : RequestBeginBlock) :
    (ListenBeginBlock lib fss req).fss =
      { fss with header := (lib.HeaderFromProto req.Header).1 } := by
  simp only [ListenBeginBlock]
  split <;> rfl

theorem step_writeDir (lib : Lib) (fss : FileStreamingService) (c : Call) :
    (step lib fss c).fss.writeDir = fss.writeDir := by
  cases c with
  | BeginBlock req => simp [step, ListenBeginBlock_fss]
  | DeliverTx req res => rfl
  | EndBlock oc req => simp [step, ListenEndBlock_fss]

theorem step_basePrefix (lib : Lib) (fss : FileStreamingService) (c : Call) :
    basePrefix (step lib fss c).fss.filePrefix = basePrefix fss.filePrefix := by
  cases c with
  | BeginBlock req => simp [step, ListenBeginBlock_fss]
  | DeliverTx req res => rfl
  | EndBlock oc req => simp [step, ListenEndBlock_fss, basePrefix_append]

theorem after_writeDir (lib : Lib) (fss : FileStreamingService) (cs : List Call) :
    (after lib fss cs).writeDir = fss.writeDir := by
  induction cs generalizing fss with
  | nil => rfl
  | cons c cs ih =>
    have h := ih (step lib fss c).fss
    simp only [after, List.foldl_cons] at h ⊢
    rw [h, step_writeDir]

theorem after_basePrefix (lib : Lib) (fss : FileStreamingService) (cs : List Call) :
    basePrefix (after lib fss cs).filePrefix = basePrefix fss.filePrefix := by
  induction cs generalizing fss with
  | nil => rfl
  | cons c cs ih =>
    have h := ih (step lib fss c).fss
    simp only [after, List.foldl_cons] at h ⊢
    rw [h, step_basePrefix]

theorem after_deliverCalls (lib : Lib) (fss : FileStreamingService)
    (txs : List (RequestDeliverTx × ResponseDeliverTx)) :
    after lib fss (deliverCalls txs) =
      { fss with txCache := fss.txCache ++ txs.map recordOf } := by
  induction txs generalizing fss with
  | nil => simp [after, deliverCalls]
  | cons t ts ih =>
    have h := ih (ListenDeliverTx fss t.1 t.2)
    simp only [after, deliverCalls, List.map_cons, List.foldl_cons, step] at h ⊢
    rw [h]
    simp [ListenDeliverTx, recordOf]

theorem after_begin_deliver (lib : Lib) (fss : FileStreamingService)
    (req : RequestBeginBlock) (txs : List (RequestDeliverTx × ResponseDeliverTx)) :
    after lib fss (Call.BeginBlock req :: deliverCalls txs) =
      { fss with
        header := (lib.HeaderFromProto req.Header).1,
        txCache := fss.txCache ++ txs.map recordOf } := by
  have h := after_deliverCalls lib (step lib fss (Call.BeginBlock req)).fss txs
  simp only [after, List.foldl_cons] at h ⊢
  rw [h]
  simp [step, ListenBeginBlock_fss]

theorem after_block (lib : Lib) (fss : FileStreamingService) (b : BlockCalls) :
    (after lib fss b.calls).txCache = [] := by
  have e : b.calls = (Call.BeginBlock b.beginReq :: deliverCalls b.txs)
      ++ [Call.EndBlock b.osCreate b.endReq] := rfl
  rw [e, after_append]
  simp [after, step, ListenEndBlock_fss]

theorem after_blocks (lib : Lib) (fss : FileStreamingService) (h : fss.txCache = [])
    (blocks : List BlockCalls) :
    (after lib fss (blocks.flatMap BlockCalls.calls)).txCache = [] := by
  induction blocks generalizing fss with
  | nil => simpa [after] using h
  | cons b bs ih =>
    rw [List.flatMap_cons, after_append]
    exact ih _ (after_block lib fss b)

/-- Every file created by an end-block call that follows any sequence of
calls on `NewFileStreamingService D P` is named after `D`, the part of `P`
before its first `_`, and the height of that call. -/
theorem endBlock_after_run_mem (lib : Lib) (D P : String) (cs : List Call)
    (oc : String → Option String) (req : RequestEndBlock) (f : String × String)
    (hf : f ∈ (ListenEndBlock lib oc (after lib (NewFileStreamingService D P) cs) req).files) :
    f.1 = artifactName D (basePrefix P) req.Height "txs" ∨
      f.1 = artifactName D (basePrefix P) req.Height "block" := by
  have hw : (after lib (NewFileStreamingService D P) cs).writeDir = D :=
    after_writeDir lib _ cs
  have hp : basePrefix (after lib (NewFileStreamingService D P) cs).filePrefix = basePrefix P :=
    after_basePrefix lib _ cs
  rcases ListenEndBlock_mem lib oc _ req f hf with ⟨h, _⟩ | ⟨h, _⟩
  · left
    rw [h, hw, hp]
  · right
    rw [h, hw, hp]

theorem endBlock_after_run_block (lib : Lib) (D P : String) (cs : List Call)
    (oc : String → Option String) (req : RequestEndBlock) (data : String)
    (hb : lib.MarshalBlock (blockRecord lib (after lib (NewFileStreamingService D P) cs))
      = .ok data)
    (hcreate : ∀ name, oc name = none) :
    (artifactName D (basePrefix P) req.Height "block", data)
      ∈ (ListenEndBlock lib oc (after lib (NewFileStreamingService D P) cs) req).files := by
  have hw : (after lib (NewFileStreamingService D P) cs).writeDir = D :=
    after_writeDir lib _ cs
  have hp : basePrefix (after lib (NewFileStreamingService D P) cs).filePrefix = basePrefix P :=
    after_basePrefix lib _ cs
  have h := ListenEndBlock_block_mem lib oc _ req data (hcreate _) hb (hcreate _)
  rwa [hw, hp] at h

theorem endBlock_after_run_txs (lib : Lib) (D P : String) (cs : List Call)
    (oc : String → Option String) (req : RequestEndBlock) (data : String)
    (hlen : 0 < (after lib (NewFileStreamingService D P) cs).txCache.length)
    (hm : lib.MarshalTxs { Txs := (after lib (NewFileStreamingService D P) cs).txCache }
      = .ok data)
    (hcreate : ∀ name, oc name = none) :
    (artifactName D (basePrefix P) req.Height "txs", data)
      ∈ (ListenEndBlock lib oc (after lib (NewFileStreamingService D P) cs) req).files := by
  have hw : (after lib (NewFileStreamingService D P) cs).writeDir = D :=
    after_writeDir lib _ cs
  have hp : basePrefix (after lib (NewFileStreamingService D P) cs).filePrefix = basePrefix P :=
    after_basePrefix lib _ cs
  have h := ListenEndBlock_txs_mem lib oc _ req data hlen hm (hcreate _)
  rwa [hw, hp] at h

theorem endBlock_after_run_filePrefix (lib : Lib) (D P : String) (cs : List Call)
    (oc : String → Option String) (req : RequestEndBlock) :
    (ListenEndBlock lib oc (after lib (NewFileStreamingService D P) cs) req).fss.filePrefix
      = basePrefix P ++ "_" ++ SprintInt64 req.Height := by
  have hp : basePrefix (after lib (NewFileStreamingService D P) cs).filePrefix = basePrefix P :=
    after_basePrefix lib _ cs
  simp [ListenEndBlock_fss, hp]

/-! ## The claims -/

/-- C1: for every prior service state, every end-block request and every
outcome of JSON encoding and of file creation, `ListenEndBlock` returns, and
after it has returned `txCache` is the empty sequence and `header` is the
zero-value header. -/
theorem C1_end_block_resets_accumulator (lib : Lib) (osCreate : String → Option String)
    (fss : FileStreamingService) (req : RequestEndBlock) :
    (ListenEndBlock lib osCreate fss req).panicked = false ∧
      (ListenEndBlock lib osCreate fss req).fss.txCache = [] ∧
      (ListenEndBlock lib osCreate fss req).fss.header = Header.zero := by
  refine ⟨ListenEndBlock_panicked lib osCreate fss req, ?_, ?_⟩ <;>
    simp [ListenEndBlock_fss]

/-- C2 (the code departs from the claim): with one buffered transaction at
height 7, creation of `d/P_7_txs` failing and creation of `d/P_7_block`
allowed, `ListenEndBlock` returns right after logging the error and creates
no file at all, so the `_block` artifact is missing; the accumulator is
reset. When instead marshalling the transactions fails, the same call does
write the `_block` artifact. -/
theorem C2_block_artifact_missing_after_txs_create_failure :
    0 < oneBuffered.txCache.length ∧
      txsDenied "d/P_7_txs" = some "permission denied" ∧
      txsDenied "d/P_7_block" = none ∧
      (ListenEndBlock demoLib txsDenied oneBuffered { Height := 7 }).files = [] ∧
      (ListenEndBlock demoLib txsDenied oneBuffered { Height := 7 }).logs
        = ["permission denied"] ∧
      (ListenEndBlock demoLib txsDenied oneBuffered { Height := 7 }).fss.txCache = [] ∧
      (ListenEndBlock txsMarshalFailsLib txsDenied oneBuffered { Height := 7 }).files
        = [("d/P_7_block", "block:7:1")] := by
  decide

/-- C3 (counterexample): the header conversion fails and returns a header of
height 7 next to the error; after `ListenBeginBlock` the stored header is
that header, not the zero-value header stored before the call. -/
theorem C3_stored_header_overwritten_on_parse_failure :
    (rejectingLib.HeaderFromProto header7).2 = some "invalid header" ∧
      (NewFileStreamingService "d" "P").header = Header.zero ∧
      (ListenBeginBlock rejectingLib (NewFileStreamingService "d" "P")
        { Header := header7 }).fss.header = header7 ∧
      (ListenBeginBlock rejectingLib (NewFileStreamingService "d" "P")
        { Header := header7 }).fss.header ≠ (NewFileStreamingService "d" "P").header := by
  decide

/-- C3 (amended): when `types.HeaderFromProto` returns a non-nil error,
`ListenBeginBlock` stores the header value returned next to the error, logs
the error, creates no file, and leaves `txCache`, `filePrefix` and
`writeDir` as they were. -/
theorem C3_begin_block_stores_returned_header (lib : Lib) (fss : FileStreamingService)
    (req : RequestBeginBlock) (err : String)
    (hfail : (lib.HeaderFromProto req.Header).2 = some err) :
    (ListenBeginBlock lib fss req).fss.header = (lib.HeaderFromProto req.Header).1 ∧
      (ListenBeginBlock lib fss req).fss.txCache = fss.txCache ∧
      (ListenBeginBlock lib fss req).fss.filePrefix = fss.filePrefix ∧
      (ListenBeginBlock lib fss req).fss.writeDir = fss.writeDir ∧
      (ListenBeginBlock lib fss req).logs = [err] ∧
      (ListenBeginBlock lib fss req).files = [] ∧
      (ListenBeginBlock lib fss req).panicked = false := by
  simp [ListenBeginBlock, hfail]

/-- C3 (witness of the amended statement): a rejected header of height 7. -/
theorem C3_begin_block_stores_returned_header_witness :
    (rejectingLib.HeaderFromProto
        (RequestBeginBlock.mk header7).Header).2 = some "invalid header" ∧
      ((ListenBeginBlock rejectingLib oneBuffered { Header := header7 }).fss.header
          = (rejectingLib.HeaderFromProto (RequestBeginBlock.mk header7).Header).1 ∧
        (ListenBeginBlock rejectingLib oneBuffered { Header := header7 }).fss.txCache
          = oneBuffered.txCache ∧
        (ListenBeginBlock rejectingLib oneBuffered { Header := header7 }).fss.filePrefix
          = oneBuffered.filePrefix ∧
        (ListenBeginBlock rejectingLib oneBuffered { Header := header7 }).fss.writeDir
          = oneBuffered.writeDir ∧
        (ListenBeginBlock rejectingLib oneBuffered { Header := header7 }).logs
          = ["invalid header"] ∧
        (ListenBeginBlock rejectingLib oneBuffered { Header := header7 }).files = [] ∧
        (ListenBeginBlock rejectingLib oneBuffered { Header := header7 }).panicked = false) :=
  ⟨rfl, C3_begin_block_stores_returned_header rejectingLib oneBuffered { Header := header7 }
    "invalid header" rfl⟩

/-- C4: let a service hold no buffered transaction (it was just constructed
or flushed, a begin-block call may have followed), let `N >= 1` transactions
be delivered to it and let every file creation of the next `ListenEndBlock`
succeed. The buffered list has exactly `N` entries; its `i`-th entry is the
`i`-th delivery: its `tx` is a string of two lowercase hex digits per byte
that reads back to the bytes of the `i`-th transaction, and its `tx_result`
is the `i`-th result unchanged, whatever the result reports; and the content
written to the `_txs` artifact of that call is exactly the encoding of this
list. -/
theorem C4_txs_artifact_holds_all_deliveries (lib : Lib) (osCreate : String → Option String)
    (fss0 : FileStreamingService) (req : RequestEndBlock)
    (txs : List (RequestDeliverTx × ResponseDeliverTx))
    (hflushed : fss0.txCache = []) (hN : 1 ≤ txs.length)
    (hcreate : ∀ name, osCreate name = none) :
    ∃ fss, run lib fss0 (deliverCalls txs) = some fss ∧
      fss.txCache.length = txs.length ∧
      (∀ i (hi : i < txs.length), fss.txCache[i]? =
        some { Tx := hex.EncodeToString txs[i].1.Tx, TxResult := txs[i].2 }) ∧
      (∀ i (hi : i < txs.length), ∃ e, fss.txCache[i]? = some e ∧
        decodeLowerHex e.Tx.data = some txs[i].1.Tx ∧
        e.Tx.data.length = 2 * txs[i].1.Tx.length ∧
        e.TxResult = txs[i].2) ∧
      (∀ data,
        (artifactName fss0.writeDir (basePrefix fss0.filePrefix) req.Height "txs", data)
            ∈ (ListenEndBlock lib osCreate fss req).files
          ↔ lib.MarshalTxs { Txs := fss.txCache } = .ok data) := by
  have hentry : ∀ i (hi : i < txs.length),
      (after lib fss0 (deliverCalls txs)).txCache[i]? =
        some { Tx := hex.EncodeToString txs[i].1.Tx, TxResult := txs[i].2 } := by
    intro i hi
    simp [after_deliverCalls, hflushed, List.getElem?_map, List.getElem?_eq_getElem hi, recordOf]
  refine ⟨_, run_eq lib fss0 _, ?_, hentry, ?_, ?_⟩
  · simp [after_deliverCalls, hflushed]
  · intro i hi
    exact ⟨_, hentry i hi, decodeLowerHex_EncodeToString _, EncodeToString_length _, rfl⟩
  · intro data
    have hw : (after lib fss0 (deliverCalls txs)).writeDir = fss0.writeDir :=
      after_writeDir lib fss0 _
    have hp : basePrefix (after lib fss0 (deliverCalls txs)).filePrefix
        = basePrefix fss0.filePrefix := after_basePrefix lib fss0 _
    have hlen : 0 < (after lib fss0 (deliverCalls txs)).txCache.length := by
      simp [after_deliverCalls, hflushed]
      omega
    constructor
    · intro hmem
      rcases ListenEndBlock_mem lib osCreate _ req _ hmem with ⟨_, _, hm⟩ | ⟨hname, _⟩
      · exact hm
      · rw [hw, hp] at hname
        exact absurd hname.symm (artifact_block_ne_txs _ _ _ _ _ _)
    · intro hm
      have h := ListenEndBlock_txs_mem lib osCreate _ req data hlen hm (hcreate _)
      rwa [hw, hp] at h

/-- C4 (witness): the transactions `ab 01` (executed with success) and `ff`
(execution failed with code 5) delivered to a fresh service and flushed at
height 100. The buffer holds `ab01` and `ff` with their results, and the
`_txs` artifact lists both entries in that order. -/
theorem C4_txs_artifact_holds_all_deliveries_witness :
    (NewFileStreamingService "d" "P").txCache = [] ∧
      1 ≤ [((RequestDeliverTx.mk [0xAB, 0x01]), resultOk),
        ((RequestDeliverTx.mk [0xFF]), resultFailed)].length ∧
      (∀ name, createOk name = none) ∧
      run listingLib (NewFileStreamingService "d" "P")
          (deliverCalls [((RequestDeliverTx.mk [0xAB, 0x01]), resultOk),
            ((RequestDeliverTx.mk [0xFF]), resultFailed)])
        = some { header := Header.zero,
                 txCache := [{ Tx := "ab01", TxResult := resultOk },
                   { Tx := "ff", TxResult := resultFailed }],
                 filePrefix := "P", writeDir := "d" } ∧
      (ListenEndBlock listingLib createOk
          { header := Header.zero,
            txCache := [{ Tx := "ab01", TxResult := resultOk },
              { Tx := "ff", TxResult := resultFailed }],
            filePrefix := "P", writeDir := "d" } { Height := 100 }).files
        = [("d/P_100_txs", "ab01:0;ff:5;"), ("d/P_100_block", "block:0:2")] ∧
      decodeLowerHex ("ab01" : String).data = some [0xAB, 0x01] ∧
      decodeLowerHex ("AB01" : String).data = none ∧
      ∃ fss, run listingLib (NewFileStreamingService "d" "P")
          (deliverCalls [((RequestDeliverTx.mk [0xAB, 0x01]), resultOk),
            ((RequestDeliverTx.mk [0xFF]), resultFailed)]) = some fss ∧
        fss.txCache.length = [((RequestDeliverTx.mk [0xAB, 0x01]), resultOk),
          ((RequestDeliverTx.mk [0xFF]), resultFailed)].length ∧
        (∀ data,
          (artifactName (NewFileStreamingService "d" "P").writeDir
              (basePrefix (NewFileStreamingService "d" "P").filePrefix)
              (RequestEndBlock.mk 100).Height "txs", data)
              ∈ (ListenEndBlock listingLib createOk fss { Height := 100 }).files
            ↔ listingLib.MarshalTxs { Txs := fss.txCache } = .ok data) :=
  ⟨rfl, by decide, fun _ => rfl, by decide, by decide, by decide, by decide,
    (C4_txs_artifact_holds_all_deliveries listingLib createOk (NewFileStreamingService "d" "P")
      { Height := 100 } [((RequestDeliverTx.mk [0xAB, 0x01]), resultOk),
        ((RequestDeliverTx.mk [0xFF]), resultFailed)] rfl (by decide) (fun _ => rfl)).imp
      fun _ h => ⟨h.1, h.2.1, h.2.2.2.2⟩⟩

/-- C5: for every service state with an empty `txCache` and every end-block
request, `ListenEndBlock` creates no file whose name ends in `_txs`; the
block record it encodes has `txn = 0`; every file it creates is the `_block`
artifact holding that encoded record; and the `_block` artifact is created
whenever the encoding and `os.Create` succeed. -/
theorem C5_empty_block_writes_only_block_artifact (lib : Lib)
    (osCreate : String → Option String) (fss : FileStreamingService) (req : RequestEndBlock)
    (hempty : fss.txCache = []) :
    (∀ f ∈ (ListenEndBlock lib osCreate fss req).files, ∀ a : String, f.1 ≠ a ++ "_txs") ∧
      (blockRecord lib fss).Txn = 0 ∧
      (∀ f ∈ (ListenEndBlock lib osCreate fss req).files,
        f.1 = artifactName fss.writeDir (basePrefix fss.filePrefix) req.Height "block" ∧
          lib.MarshalBlock (blockRecord lib fss) = .ok f.2) ∧
      (∀ data, lib.MarshalBlock (blockRecord lib fss) = .ok data →
        osCreate (artifactName fss.writeDir (basePrefix fss.filePrefix) req.Height "block")
          = none →
        (ListenEndBlock lib osCreate fss req).files =
          [(artifactName fss.writeDir (basePrefix fss.filePrefix) req.Height "block",
            data)]) := by
  have hmem : ∀ f ∈ (ListenEndBlock lib osCreate fss req).files,
      f.1 = artifactName fss.writeDir (basePrefix fss.filePrefix) req.Height "block" ∧
        lib.MarshalBlock (blockRecord lib fss) = .ok f.2 := by
    intro f hf
    rcases ListenEndBlock_mem lib osCreate fss req f hf with ⟨_, hlen, _⟩ | h
    · simp [hempty] at hlen
    · exact h
  refine ⟨?_, ?_, hmem, ?_⟩
  · intro f hf a
    rw [(hmem f hf).1]
    exact artifact_block_not_txs _ _ _ _
  · simp [blockRecord, hempty]
  · intro data hb ho
    rw [ListenEndBlock_files_empty_cache lib osCreate fss req hempty]
    simp [hb, ho]

/-- C5 (witness): a fresh service at height 5. -/
theorem C5_empty_block_writes_only_block_artifact_witness :
    (NewFileStreamingService "d" "P").txCache = [] ∧
      (ListenEndBlock demoLib createOk (NewFileStreamingService "d" "P") { Height := 5 }).files
        = [("d/P_5_block", "block:0:0")] ∧
      (blockRecord demoLib (NewFileStreamingService "d" "P")).Txn = 0 :=
  ⟨rfl, by decide,
    (C5_empty_block_writes_only_block_artifact demoLib createOk
      (NewFileStreamingService "d" "P") { Height := 5 } rfl).2.1⟩

/-- C6: start from a service with no buffered transaction (fresh or
flushed), call `ListenBeginBlock` with a header that parses to `H`, deliver
`k` transactions and call `ListenEndBlock`. The block record of that call has
`height = H.Height`, `time = H.Time.Unix()`, `hash` and `proposer` the string
forms of `H.Hash()` and `H.ProposerAddress`, and `txn = k`; whatever is
written to the `_block` artifact is the encoding of this record, and it is
written when encoding and file creation succeed; a `_txs` artifact written by
the same call encodes a list of exactly `k` entries. -/
theorem C6_block_record_matches_header_and_count (lib : Lib)
    (osCreate : String → Option String) (fss0 : FileStreamingService)
    (reqBegin : RequestBeginBlock) (txs : List (RequestDeliverTx × ResponseDeliverTx))
    (reqEnd : RequestEndBlock) (H : Header)
    (hflushed : fss0.txCache = []) (hparse : lib.HeaderFromProto reqBegin.Header = (H, none)) :
    ∃ fss, run lib fss0 (Call.BeginBlock reqBegin :: deliverCalls txs) = some fss ∧
      blockRecord lib fss =
        { Height := H.Height,
          Time := H.Time.Unix,
          Hash := HexBytes.String (lib.HeaderHash H),
          Txn := (txs.length : Int),
          Proposer := HexBytes.String H.ProposerAddress } ∧
      (∀ data,
        (artifactName fss0.writeDir (basePrefix fss0.filePrefix) reqEnd.Height "block", data)
            ∈ (ListenEndBlock lib osCreate fss reqEnd).files →
          lib.MarshalBlock (blockRecord lib fss) = .ok data) ∧
      (∀ data, lib.MarshalBlock (blockRecord lib fss) = .ok data →
        (∀ name, osCreate name = none) →
        (artifactName fss0.writeDir (basePrefix fss0.filePrefix) reqEnd.Height "block", data)
          ∈ (ListenEndBlock lib osCreate fss reqEnd).files) ∧
      (∀ data,
        (artifactName fss0.writeDir (basePrefix fss0.filePrefix) reqEnd.Height "txs", data)
            ∈ (ListenEndBlock lib osCreate fss reqEnd).files →
          ∃ entries : List DeliverTx, lib.MarshalTxs { Txs := entries } = .ok data ∧
            (entries.length : Int) = (blockRecord lib fss).Txn ∧
            entries.length = txs.length) := by
  have hw : (after lib fss0 (Call.BeginBlock reqBegin :: deliverCalls txs)).writeDir
      = fss0.writeDir := after_writeDir lib fss0 _
  have hp : basePrefix (after lib fss0 (Call.BeginBlock reqBegin :: deliverCalls txs)).filePrefix
      = basePrefix fss0.filePrefix := after_basePrefix lib fss0 _
  have hcache : (after lib fss0 (Call.BeginBlock reqBegin :: deliverCalls txs)).txCache
      = txs.map recordOf := by
    simp [after_begin_deliver, hflushed]
  refine ⟨_, run_eq lib fss0 _, ?_, ?_, ?_, ?_⟩
  · simp [blockRecord, after_begin_deliver, hflushed, hparse]
  · intro data hmem
    rcases ListenEndBlock_mem lib osCreate _ reqEnd _ hmem with ⟨hname, _, _⟩ | ⟨_, hb⟩
    · rw [hw, hp] at hname
      exact absurd hname (artifact_block_ne_txs _ _ _ _ _ _)
    · exact hb
  · intro data hb hcreate
    have h := ListenEndBlock_block_mem lib osCreate _ reqEnd data (hcreate _) hb (hcreate _)
    rwa [hw, hp] at h
  · intro data hmem
    rcases ListenEndBlock_mem lib osCreate _ reqEnd _ hmem with ⟨_, _, hm⟩ | ⟨hname, _⟩
    · refine ⟨_, hm, ?_, ?_⟩
      · simp [blockRecord]
      · simp [hcache]
    · rw [hw, hp] at hname
      exact absurd hname.symm (artifact_block_ne_txs _ _ _ _ _ _)

/-- C6 (witness): the block of height 7 with one delivered transaction, on a
fresh service. -/
theorem C6_block_record_matches_header_and_count_witness :
    (NewFileStreamingService "d" "P").txCache = [] ∧
      demoLib.HeaderFromProto (RequestBeginBlock.mk header7).Header = (header7, none) ∧
      (ListenEndBlock demoLib createOk oneBuffered { Height := 7 }).files
        = [("d/P_7_txs", "txs:1"), ("d/P_7_block", "block:7:1")] ∧
      blockRecord demoLib oneBuffered
        = { Height := 7, Time := 1000, Hash := "AB0C", Txn := 1, Proposer := "01FE" } ∧
      ∃ fss, run demoLib (NewFileStreamingService "d" "P")
          (Call.BeginBlock { Header := header7 }
            :: deliverCalls [((RequestDeliverTx.mk [0x01, 0xFF]), resultFailed)]) = some fss ∧
        blockRecord demoLib fss =
          { Height := header7.Height,
            Time := header7.Time.Unix,
            Hash := HexBytes.String (demoLib.HeaderHash header7),
            Txn := (([((RequestDeliverTx.mk [0x01, 0xFF]), resultFailed)].length : Nat) : Int),
            Proposer := HexBytes.String header7.ProposerAddress } :=
  ⟨rfl, rfl, by decide, by decide,
    (C6_block_record_matches_header_and_count demoLib createOk (NewFileStreamingService "d" "P")
      { Header := header7 } [((RequestDeliverTx.mk [0x01, 0xFF]), resultFailed)] { Height := 7 }
      header7 rfl rfl).imp fun _ h => ⟨h.1, h.2.1⟩⟩

/-- C7: let the base prefix `P` contain no `_` and let any sequence of
listener calls, with end-block calls at any heights among them, be made on
`NewFileStreamingService D P`. The next `ListenEndBlock`, at height `h`,
stores the prefix `P_h`, names every file it creates `D/P_h_txs` or
`D/P_h_block`, and does create the files of these names when encoding and
file creation succeed: no earlier height is part of a name. -/
theorem C7_heights_never_accumulate_in_names (lib : Lib) (D P : String) (cs : List Call)
    (osCreate : String → Option String) (req : RequestEndBlock) (hP : '_' ∉ P.data) :
    ∃ fss, run lib (NewFileStreamingService D P) cs = some fss ∧
      (ListenEndBlock lib osCreate fss req).fss.filePrefix = P ++ "_" ++ SprintInt64 req.Height ∧
      (∀ f ∈ (ListenEndBlock lib osCreate fss req).files,
        f.1 = artifactName D P req.Height "txs" ∨ f.1 = artifactName D P req.Height "block") ∧
      (∀ data, lib.MarshalBlock (blockRecord lib fss) = .ok data →
        (∀ name, osCreate name = none) →
        (artifactName D P req.Height "block", data)
          ∈ (ListenEndBlock lib osCreate fss req).files) ∧
      (∀ data, 0 < fss.txCache.length → lib.MarshalTxs { Txs := fss.txCache } = .ok data →
        (∀ name, osCreate name = none) →
        (artifactName D P req.Height "txs", data)
          ∈ (ListenEndBlock lib osCreate fss req).files) := by
  have hb := basePrefix_of_not_mem P hP
  refine ⟨_, run_eq lib _ cs, ?_, ?_, ?_, ?_⟩
  · have h := endBlock_after_run_filePrefix lib D P cs osCreate req
    rwa [hb] at h
  · intro f hf
    have h := endBlock_after_run_mem lib D P cs osCreate req f hf
    rwa [hb] at h
  · intro data hm hcreate
    have h := endBlock_after_run_block lib D P cs osCreate req data hm hcreate
    rwa [hb] at h
  · intro data hlen hm hcreate
    have h := endBlock_after_run_txs lib D P cs osCreate req data hlen hm hcreate
    rwa [hb] at h

/-- C7 (witness): prefix `P`, a block at height 5, then a block with one
transaction at height 6. -/
theorem C7_heights_never_accumulate_in_names_witness :
    '_' ∉ ("P" : String).data ∧
      (ListenEndBlock demoLib createOk (NewFileStreamingService "d" "P") { Height := 5 }).files
        = [("d/P_5_block", "block:0:0")] ∧
      artifactName "d" "P" 6 "txs" = "d/P_6_txs" ∧
      artifactName "d" "P" 6 "block" = "d/P_6_block" ∧
      ∃ fss, run demoLib (NewFileStreamingService "d" "P")
          [Call.EndBlock createOk { Height := 5 }, Call.BeginBlock { Header := header7 },
            Call.DeliverTx { Tx := [0x01] } resultOk] = some fss ∧
        (ListenEndBlock demoLib createOk fss { Height := 6 }).fss.filePrefix
          = "P" ++ "_" ++ SprintInt64 (RequestEndBlock.mk 6).Height ∧
        (∀ f ∈ (ListenEndBlock demoLib createOk fss { Height := 6 }).files,
          f.1 = artifactName "d" "P" (RequestEndBlock.mk 6).Height "txs" ∨
            f.1 = artifactName "d" "P" (RequestEndBlock.mk 6).Height "block") :=
  ⟨by decide, by decide, by decide, by decide,
    (C7_heights_never_accumulate_in_names demoLib "d" "P"
      [Call.EndBlock createOk { Height := 5 }, Call.BeginBlock { Header := header7 },
        Call.DeliverTx { Tx := [0x01] } resultOk] createOk { Height := 6 } (by decide)).imp
      fun _ h => ⟨h.1, h.2.1, h.2.2.1⟩⟩

/-- C8 (the code departs from the claim): constructed with the prefix
`my_node`, the service names the block artifact of height 5 `d/my_5_block`;
no file is named `d/my_node_5_block`. -/
theorem C8_prefix_with_separator_is_cut :
    artifactName "d" "my_node" 5 "block" = "d/my_node_5_block" ∧
      (ListenEndBlock demoLib createOk (NewFileStreamingService "d" "my_node")
        { Height := 5 }).files = [("d/my_5_block", "block:0:0")] ∧
      ¬ ∃ f ∈ (ListenEndBlock demoLib createOk (NewFileStreamingService "d" "my_node")
          { Height := 5 }).files, f.1 = artifactName "d" "my_node" 5 "block" := by
  decide

/-- The naming rule the code implements: for every `writeDir`, every prefix
given to `NewFileStreamingService`, every sequence of calls made since and
every height `h`, the files `ListenEndBlock` creates are named
`writeDir/B_h_txs` or `writeDir/B_h_block`, where `B` is the part of the
given prefix before its first `_` (the whole prefix when it contains none);
the files of these names are created when encoding and file creation
succeed. -/
theorem artifacts_named_after_truncated_prefix (lib : Lib) (writeDir filePrefix : String)
    (cs : List Call) (osCreate : String → Option String) (req : RequestEndBlock) :
    basePrefix filePrefix = String.mk (filePrefix.data.takeWhile fun c => c != '_') ∧
    ∃ fss, run lib (NewFileStreamingService writeDir filePrefix) cs = some fss ∧
      (∀ f ∈ (ListenEndBlock lib osCreate fss req).files,
        f.1 = artifactName writeDir (basePrefix filePrefix) req.Height "txs" ∨
          f.1 = artifactName writeDir (basePrefix filePrefix) req.Height "block") ∧
      (∀ data, lib.MarshalBlock (blockRecord lib fss) = .ok data →
        (∀ name, osCreate name = none) →
        (artifactName writeDir (basePrefix filePrefix) req.Height "block", data)
          ∈ (ListenEndBlock lib osCreate fss req).files) ∧
      (∀ data, 0 < fss.txCache.length → lib.MarshalTxs { Txs := fss.txCache } = .ok data →
        (∀ name, osCreate name = none) →
        (artifactName writeDir (basePrefix filePrefix) req.Height "txs", data)
          ∈ (ListenEndBlock lib osCreate fss req).files) :=
  ⟨rfl, _, run_eq lib _ cs,
    fun f hf => endBlock_after_run_mem lib writeDir filePrefix cs osCreate req f hf,
    fun data hm hcreate =>
      endBlock_after_run_block lib writeDir filePrefix cs osCreate req data hm hcreate,
    fun data hlen hm hcreate =>
      endBlock_after_run_txs lib writeDir filePrefix cs osCreate req data hlen hm hcreate⟩

/-- C9: on a service returned by `NewFileStreamingService`, `txCache` is
empty at construction and after every sequence of whole blocks
`(ListenBeginBlock, ListenDeliverTx*, ListenEndBlock)*`; for the block that
follows, the records buffered when its `ListenEndBlock` starts are exactly
the records of its own deliveries, in order, and `txCache` is empty again
when that call has returned. -/
theorem C9_cache_empty_at_block_boundaries (lib : Lib) (writeDir filePrefix : String)
    (blocks : List BlockCalls) (b : BlockCalls) :
    (NewFileStreamingService writeDir filePrefix).txCache = [] ∧
      ∃ fss, run lib (NewFileStreamingService writeDir filePrefix)
          (blocks.flatMap BlockCalls.calls) = some fss ∧
        fss.txCache = [] ∧
        ∃ fssFlush, run lib fss (Call.BeginBlock b.beginReq :: deliverCalls b.txs)
            = some fssFlush ∧
          fssFlush.txCache = b.txs.map recordOf ∧
          ∃ fssEnd, run lib fss b.calls = some fssEnd ∧ fssEnd.txCache = [] := by
  have h0 : (after lib (NewFileStreamingService writeDir filePrefix)
      (blocks.flatMap BlockCalls.calls)).txCache = [] :=
    after_blocks lib _ rfl blocks
  refine ⟨rfl, _, run_eq lib _ _, h0, _, run_eq lib _ _, ?_, _, run_eq lib _ _, ?_⟩
  · simp [after_begin_deliver, h0]
  · exact after_block lib _ b

/-- C10: for every service state and every end-block request, whatever file
creation and encoding do: when the prefix contains `_` the index used in the
slice `filePrefix[:Index(filePrefix, "_")]` lies between 0 and the length of
the prefix, the truncation yields a string, and `ListenEndBlock` does not
panic. -/
theorem C10_end_block_never_panics (lib : Lib) (osCreate : String → Option String)
    (fss : FileStreamingService) (req : RequestEndBlock) :
    (strings.Contains fss.filePrefix "_" = false ∨
        (0 ≤ strings.Index fss.filePrefix "_" ∧
          strings.Index fss.filePrefix "_" ≤ (fss.filePrefix.data.length : Int))) ∧
      (∃ p, truncatePrefix fss.filePrefix = some p) ∧
      (ListenEndBlock lib osCreate fss req).panicked = false := by
  refine ⟨?_, ⟨_, truncatePrefix_eq _⟩, ListenEndBlock_panicked lib osCreate fss req⟩
  by_cases h : '_' ∈ fss.filePrefix.data
  · right
    have hle := length_takeWhile_le (fun c => c != '_') fss.filePrefix.data
    rw [Index_sep_of_mem _ h]
    constructor
    · exact Int.natCast_nonneg _
    · exact_mod_cast hle
  · left
    simp [strings.Contains, Index_sep_of_not_mem _ h]

end StreamServer
